import Mathlib

/-!
Verification of the indicator engine of `src/app.py`
(Quant Technical Indicators Engine).

The engine works on pandas Series.  We embed a series as `List (Option ℚ)`:
`none` is the in-band undefined marker (pandas `NaN`), `some q` a defined
numeric value, modelled with exact rationals.  Square roots (Bollinger
standard deviation) live in `ℝ`.

Pandas semantics embedded here:
* `series.rolling(n).mean()` — fixed window of the `n` trailing values
  `series[i-n+1 .. i]`; `min_periods` defaults to the window size, so the
  result is `NaN` whenever fewer than `n` defined values are in the window
  (in particular for `i < n-1`, and whenever the window contains a `NaN`).
* `series.rolling(n).std()` — same window, sample standard deviation with
  `ddof = 1` (divisor `n - 1`; `NaN` when the window count is `≤ 1`).
* `series.ewm(span=n, adjust=False).mean()` — `α = 2/(n+1)`, with the
  default `ignore_na=False` and `min_periods=0`: output is `NaN` before the
  first defined input; at a defined input the mean is updated with
  renormalised weights; at a `NaN` input the previous mean is emitted
  unchanged and the weight of the old mean decays by `(1-α)`.
* elementwise arithmetic propagates `NaN`; comparisons with `NaN` are false.
-/

namespace Quant

/-- A pandas Series of floats: `none` is `NaN`. -/
abbrev Series := List (Option ℚ)

/-- The defined values in the trailing window `series[i-n+1 .. i]`
(indices `> i` are never touched: no look-ahead). -/
def rmWindow (s : Series) (n i : ℕ) : List ℚ :=
  ((s.take (i + 1)).drop (i + 1 - n)).reduceOption

/-- The value of `series.rolling(n).mean()` at index `i`: the mean of the
trailing window `series[i-n+1 .. i]`, provided the window holds `n` defined
values (pandas `min_periods` defaults to the window size `n`). -/
def rmEntry (s : Series) (n i : ℕ) : Option ℚ :=
  if n ≤ i + 1 ∧ (rmWindow s n i).length = n then
    some ((rmWindow s n i).sum / n)
  else none

/-- `series.rolling(n).mean()`. -/
def rollingMean (s : Series) (n : ℕ) : Series :=
  (List.range s.length).map (rmEntry s n)

/-- `src/app.py` line 79-80: `SMA(series, n) = series.rolling(n).mean()`. -/
def SMA (s : Series) (n : ℕ) : Series :=
  rollingMean s n

/-- The value of `series.rolling(n).std()` squared at index `i`: the sample
variance (`ddof = 1`, divisor `n - 1`) of the trailing window, `NaN` when
the window is short, holds a `NaN`, or has count `≤ 1`. -/
def varEntry (s : Series) (n i : ℕ) : Option ℚ :=
  if 2 ≤ n ∧ n ≤ i + 1 ∧ (rmWindow s n i).length = n then
    some (((rmWindow s n i).map
      (fun x => (x - (rmWindow s n i).sum / n) ^ 2)).sum / (n - 1 : ℕ))
  else none

/-- The sample variance series underlying `series.rolling(n).std()`. -/
def rollingVar (s : Series) (n : ℕ) : Series :=
  (List.range s.length).map (varEntry s n)

/-- `src/app.py` line 104: `series.rolling(n).std()` (square root of the
sample variance, taken in `ℝ`). -/
noncomputable def rollingStd (s : Series) (n : ℕ) : List (Option ℝ) :=
  (rollingVar s n).map (Option.map fun v : ℚ => Real.sqrt (v : ℝ))

/-- One step of pandas `ewm(span, adjust=False).mean()` (the exponentially
weighted aggregation loop, `ignore_na=False`).  State: the current weighted
average (`none` before the first defined input) and the weight `old_wt` of
that average.  At a `NaN` input the average is kept and its weight decays by
`(1-a)`; at a defined input the average is updated with renormalised weights
and `old_wt` resets to `1` (the `adjust=False` branch).  (Pandas skips the
arithmetic when the new value equals the current average; the formula below
returns the same value in that case, so the skip is a numeric no-op.) -/
def ewmStep (a : ℚ) : Option ℚ × ℚ → Option ℚ → Option ℚ × ℚ
  | (none, w), none => (none, w)
  | (none, w), some x => (some x, w)
  | (some m, w), none => (some m, w * (1 - a))
  | (some m, w), some x =>
      let w2 := w * (1 - a)
      (some ((w2 * m + a * x) / (w2 + a)), 1)

/-- The exponentially weighted loop: emits the weighted average after each
step (`none` while no defined input has been seen, i.e. pandas `NaN` output
before the first observation). -/
def ewmGo (a : ℚ) (st : Option ℚ × ℚ) : Series → Series
  | [] => []
  | x :: xs =>
      let st2 := ewmStep a st x
      st2.1 :: ewmGo a st2 xs

/-- `src/app.py` line 82-83: `EMA(series, n) = series.ewm(span=n,
adjust=False).mean()`, with `α = 2/(n+1)` from the span parametrisation. -/
def EMA (s : Series) (n : ℕ) : Series :=
  ewmGo (2 / ((n : ℚ) + 1)) (none, 1) s

/-- `series.diff()`: `delta[i] = series[i] - series[i-1]`, `NaN` at index 0
and wherever either operand is `NaN`. -/
def diff : Series → Series
  | [] => []
  | x :: xs =>
      none :: List.zipWith (fun a b => a.bind fun p => Option.map (fun q => q - p) b)
        (x :: xs) xs

/-- `src/app.py` line 87: `gain = delta.clip(lower=0)` applied to `diff`. -/
def gainSeries (s : Series) : Series :=
  (diff s).map (Option.map fun d => max d 0)

/-- `src/app.py` line 88: `loss = -delta.clip(upper=0)`, i.e. `max (-d) 0`. -/
def lossSeries (s : Series) : Series :=
  (diff s).map (Option.map fun d => max (-d) 0)

/-- `src/app.py` line 90: `avg_gain = gain.rolling(n).mean()`. -/
def avgGain (s : Series) (n : ℕ) : Series :=
  rollingMean (gainSeries s) n

/-- `src/app.py` line 91: `avg_loss = loss.rolling(n).mean()`. -/
def avgLoss (s : Series) (n : ℕ) : Series :=
  rollingMean (lossSeries s) n

/-- `src/app.py` lines 93-94 pointwise: `rs = avg_gain / avg_loss` and
`rsi = 100 - 100/(1+rs)` under float conventions.  If either average is
`NaN` the result is `NaN`.  If `avg_loss = 0`: `0/0` is `NaN` (result
`none`), and `g/0` for `g ≠ 0` is an infinity, for which
`100 - 100/(1+rs) = 100`.  Otherwise the arithmetic is exact.  (The
averages fed to this function are means of clipped, hence nonnegative,
values, so `1 + g/l = 0` — the one float case this branch structure does
not reproduce — cannot arise.) -/
def rsiPoint : Option ℚ → Option ℚ → Option ℚ
  | some g, some l =>
      if l = 0 then (if g = 0 then none else some 100)
      else some (100 - 100 / (1 + g / l))
  | _, _ => none

/-- `src/app.py` lines 85-94: the RSI pipeline. -/
def RSI (s : Series) (n : ℕ) : Series :=
  List.zipWith rsiPoint (avgGain s n) (avgLoss s n)

/-- Elementwise difference of two aligned series (`NaN` propagates). -/
def subSeries (a b : Series) : Series :=
  List.zipWith (fun x y => x.bind fun u => Option.map (fun v => u - v) y) a b

/-- `src/app.py` lines 96-100: `macd = EMA(series, fast) - EMA(series, slow)`;
`signal_line = EMA(macd, signal)`; `hist = macd - signal_line`. -/
def MACD (s : Series) (fast slow signal : ℕ) : Series × Series × Series :=
  let macd := subSeries (EMA s fast) (EMA s slow)
  let signalLine := EMA macd signal
  (macd, signalLine, subSeries macd signalLine)

/-- Elementwise `mid + k * std` over `ℝ` (`NaN` propagates). -/
def addMul (k : ℝ) (mid std : List (Option ℝ)) : List (Option ℝ) :=
  List.zipWith (fun m sd => m.bind fun x => Option.map (fun y => x + k * y) sd) mid std

/-- Elementwise `mid - k * std` over `ℝ` (`NaN` propagates). -/
def subMul (k : ℝ) (mid std : List (Option ℝ)) : List (Option ℝ) :=
  List.zipWith (fun m sd => m.bind fun x => Option.map (fun y => x - k * y) sd) mid std

/-- Cast a rational series into `ℝ`. -/
def toRealSeries (s : Series) : List (Option ℝ) :=
  s.map (Option.map fun q : ℚ => (q : ℝ))

/-- `src/app.py` lines 102-107: `mid = SMA(series, n)`;
`std = series.rolling(n).std()`; `upper = mid + k*std`;
`lower = mid - k*std`; returns `(upper, mid, lower)`. -/
noncomputable def Bollinger (s : Series) (n : ℕ) (k : ℝ) :
    List (Option ℝ) × List (Option ℝ) × List (Option ℝ) :=
  let mid := toRealSeries (SMA s n)
  let std := rollingStd s n
  (addMul k mid std, mid, subMul k mid std)

/-- `src/app.py` lines 134-138: the signal column.  Start from `"HOLD"`
everywhere; assign `"BUY"` on the rows where `RSI < oversold`; then assign
`"SELL"` on the rows where `RSI > overbought` (this second masked
assignment overwrites the first where both masks hold).  A comparison with
`NaN` is false, so undefined rows keep their previous value. -/
def Signal (rsi : Series) (oversold overbought : ℚ) : List String :=
  let s0 := rsi.map fun _ => "HOLD"
  let s1 := List.zipWith
    (fun r sig => match r with
      | some v => if v < oversold then ("BUY") else sig
      | none => sig) rsi s0
  List.zipWith
    (fun r sig => match r with
      | some v => if overbought < v then ("SELL") else sig
      | none => sig) rsi s1

/-- Modelled from the spec (§4.2), for comparison with `EMA`: the inner
recursion `ema[i] = alpha*series[i] + (1-alpha)*ema[i-1]`, here carrying
`prev = ema[i-1]`. -/
def emaSpecGo (a : ℚ) (prev : ℚ) : List ℚ → List ℚ
  | [] => []
  | x :: xs =>
      let cur := a * x + (1 - a) * prev
      cur :: emaSpecGo a cur xs

/-- Modelled from the spec (§4.2), for comparison with `EMA`:
`ema[0] = series[0]`, then the recursion `emaSpecGo`. -/
def emaSpecRec (a : ℚ) : List ℚ → List ℚ
  | [] => []
  | x :: xs => x :: emaSpecGo a x xs

/-! ### Helper lemmas -/

theorem length_rollingMean (s : Series) (n : ℕ) :
    (rollingMean s n).length = s.length := by
  simp [rollingMean]

theorem rollingMean_get? (s : Series) (n i : ℕ) (hi : i < s.length) :
    (rollingMean s n).get? i = some (rmEntry s n i) := by
  simp [rollingMean, List.getElem?_map, List.getElem?_range, hi]

theorem reduceOption_map_some (l : List ℚ) :
    (l.map some).reduceOption = l := by
  induction l with
  | nil => rfl
  | cons x xs ih => simp [List.reduceOption_cons_of_some, ih]

theorem rmWindow_map_some (s : List ℚ) (n i : ℕ) :
    rmWindow (s.map some) n i = (s.take (i + 1)).drop (i + 1 - n) := by
  simp only [rmWindow, ← List.map_take, ← List.map_drop, reduceOption_map_some]

theorem mem_of_mem_rmWindow {s : Series} {n i : ℕ} {q : ℚ}
    (h : q ∈ rmWindow s n i) : some q ∈ s :=
  List.mem_of_mem_take (List.mem_of_mem_drop (List.reduceOption_mem_iff.mp h))

theorem rollingMean_entry_nonneg {s : Series} {n i : ℕ} {v : ℚ}
    (hs : ∀ q : ℚ, some q ∈ s → 0 ≤ q)
    (h : (rollingMean s n).get? i = some (some v)) : 0 ≤ v := by
  have hi : i < (rollingMean s n).length := by
    by_contra hc
    rw [List.get?_eq_none.mpr (le_of_not_lt hc)] at h
    cases h
  rw [length_rollingMean] at hi
  rw [rollingMean_get? s n i hi] at h
  have hent : rmEntry s n i = some v := by injection h
  unfold rmEntry at hent
  split at hent
  · have hv : (rmWindow s n i).sum / (n : ℚ) = v := by injection hent
    have hsum : 0 ≤ (rmWindow s n i).sum :=
      List.sum_nonneg fun q hq => hs q (mem_of_mem_rmWindow hq)
    rw [← hv]
    exact div_nonneg hsum (Nat.cast_nonneg n)
  · cases hent

theorem gainSeries_nonneg (s : Series) :
    ∀ q : ℚ, some q ∈ gainSeries s → 0 ≤ q := by
  intro q hq
  simp only [gainSeries, List.mem_map] at hq
  rcases hq with ⟨o, _, ho⟩
  cases o with
  | none => cases ho
  | some d =>
      have : max d 0 = q := by simpa using ho
      rw [← this]
      exact le_max_right d 0

theorem lossSeries_nonneg (s : Series) :
    ∀ q : ℚ, some q ∈ lossSeries s → 0 ≤ q := by
  intro q hq
  simp only [lossSeries, List.mem_map] at hq
  rcases hq with ⟨o, _, ho⟩
  cases o with
  | none => cases ho
  | some d =>
      have : max (-d) 0 = q := by simpa using ho
      rw [← this]
      exact le_max_right (-d) 0

theorem ewmGo_length (a : ℚ) :
    ∀ (l : Series) (st : Option ℚ × ℚ), (ewmGo a st l).length = l.length := by
  intro l
  induction l with
  | nil => intro st; rfl
  | cons x xs ih => intro st; simp [ewmGo, ih]

theorem EMA_length (s : Series) (n : ℕ) : (EMA s n).length = s.length :=
  ewmGo_length _ s _

theorem ewmStep_none_fst (a : ℚ) (st : Option ℚ × ℚ) :
    (ewmStep a st none).1 = st.1 := by
  rcases st with ⟨m, w⟩
  cases m <;> rfl

theorem ewmGo_carry (a : ℚ) :
    ∀ (j : ℕ) (l : Series) (st : Option ℚ × ℚ), l.get? (j + 1) = some none →
      (ewmGo a st l).get? (j + 1) = (ewmGo a st l).get? j := by
  intro j
  induction j with
  | zero =>
      intro l st h
      match l with
      | [] => cases h
      | [x] => cases h
      | x :: y :: t =>
          have hy : y = none := by
            have : some y = some (none : Option ℚ) := h
            injection this
          subst hy
          show (ewmGo a st (x :: none :: t)).get? 1 = (ewmGo a st (x :: none :: t)).get? 0
          simp [ewmGo, ewmStep_none_fst]
  | succ j ih =>
      intro l st h
      match l with
      | [] => cases h
      | x :: xs =>
          have hx : xs.get? (j + 1) = some none := h
          simp only [ewmGo, List.get?_cons_succ]
          exact ih xs (ewmStep a st x) hx

theorem ewmGo_map_some (a : ℚ) :
    ∀ (l : List ℚ) (m : ℚ),
      ewmGo a (some m, 1) (l.map some) = (emaSpecGo a m l).map some := by
  intro l
  induction l with
  | nil => intro m; rfl
  | cons x xs ih =>
      intro m
      have hstep : ewmStep a (some m, 1) (some x) = (some (a * x + (1 - a) * m), 1) := by
        show (some ((1 * (1 - a) * m + a * x) / (1 * (1 - a) + a)), (1 : ℚ)) = _
        have hd : (1 : ℚ) * (1 - a) + a = 1 := by ring
        rw [hd, div_one]
        have hv : (1 : ℚ) * (1 - a) * m + a * x = a * x + (1 - a) * m := by ring
        rw [hv]
      show ewmGo a (some m, 1) (some x :: xs.map some) = _
      simp only [ewmGo, hstep, emaSpecGo, List.map_cons]
      exact congrArg _ (ih (a * x + (1 - a) * m))

theorem EMA_map_some (l : List ℚ) (n : ℕ) :
    EMA (l.map some) n = (emaSpecRec (2 / ((n : ℚ) + 1)) l).map some := by
  match l with
  | [] => rfl
  | x :: xs =>
      show ewmGo _ (none, 1) (some x :: xs.map some) = _
      have hstep : ewmStep (2 / ((n : ℚ) + 1)) (none, 1) (some x) = (some x, 1) := rfl
      simp only [ewmGo, hstep, emaSpecRec, List.map_cons]
      exact congrArg _ (ewmGo_map_some _ xs x)

/-! ### The claims -/

/-- C1: for every input series and window `n ≥ 1`, `rollingMean` (code: `SMA`)
returns a series of the input's length whose first `n-1` entries are
undefined and whose entry at each `i ≥ n-1` is the arithmetic mean of
exactly the `n` trailing values `series[i-n+1 .. i]`; in particular
`SMA [1,2,3,4,5] 3 = [undef, undef, 2, 3, 4]`. -/
theorem rollingMean_spec :
    (∀ (s : List ℚ) (n : ℕ), 1 ≤ n →
      (SMA (s.map some) n).length = s.length
      ∧ (∀ i, i + 1 < n → i < s.length → (SMA (s.map some) n).get? i = some none)
      ∧ (∀ i, n ≤ i + 1 → i < s.length →
          ((s.take (i + 1)).drop (i + 1 - n)).length = n
          ∧ (SMA (s.map some) n).get? i
              = some (some (((s.take (i + 1)).drop (i + 1 - n)).sum / n))))
    ∧ SMA ([1, 2, 3, 4, 5].map some) 3 = [none, none, some 2, some 3, some 4] := by
  constructor
  · intro s n _
    have hlen : (SMA (s.map some) n).length = s.length := by
      simp [SMA, length_rollingMean]
    refine ⟨hlen, ?_, ?_⟩
    · intro i h1 h2
      have hi : i < (s.map some).length := by simpa using h2
      unfold SMA
      rw [rollingMean_get? _ n i hi]
      unfold rmEntry
      rw [if_neg]
      intro hcond
      omega
    · intro i h1 h2
      have hi : i < (s.map some).length := by simpa using h2
      have hwlen : ((s.take (i + 1)).drop (i + 1 - n)).length = n := by
        rw [List.length_drop, List.length_take]
        omega
      refine ⟨hwlen, ?_⟩
      unfold SMA
      rw [rollingMean_get? _ n i hi]
      unfold rmEntry
      rw [rmWindow_map_some, if_pos ⟨h1, hwlen⟩]
  · norm_num [SMA, rollingMean, rmEntry, rmWindow, List.range_succ]

/-- Witness for C1 at `s = [1,2]`, `n = 2`, `i = 1`. -/
theorem rollingMean_spec_witness :
    (SMA ([1, 2].map some) 2).get? 1
      = some (some (((([1, 2] : List ℚ).take 2).drop 0).sum / ((2 : ℕ) : ℚ))) :=
  ((rollingMean_spec.1 [1, 2] 2 (by norm_num)).2.2 1 (by norm_num) (by norm_num)).2

/-- C2: at every index where the rolling averages are computed, RSI is `100`
when `avgLoss = 0 < avgGain`, undefined (in-band marker, never coerced)
when `avgGain = avgLoss = 0`, and undefined exactly in that case. -/
theorem rsi_edge_cases (p : List ℚ) (n : ℕ) (hn : 1 ≤ n) (i : ℕ) (g l : ℚ)
    (hg : (avgGain (p.map some) n).get? i = some (some g))
    (hl : (avgLoss (p.map some) n).get? i = some (some l)) :
    (l = 0 → 0 < g → (RSI (p.map some) n).get? i = some (some 100))
    ∧ (g = 0 → l = 0 → (RSI (p.map some) n).get? i = some none)
    ∧ ((RSI (p.map some) n).get? i = some none ↔ g = 0 ∧ l = 0) := by
  have hR : (RSI (p.map some) n).get? i = some (rsiPoint (some g) (some l)) := by
    unfold RSI
    rw [List.get?_zipWith', hg, hl]
    rfl
  refine ⟨?_, ?_, ?_⟩
  · intro hl0 hg0
    rw [hR]
    simp [rsiPoint, hl0, ne_of_gt hg0]
  · intro hg0 hl0
    rw [hR]
    simp [rsiPoint, hl0, hg0]
  · rw [hR]
    constructor
    · intro h
      have hpt : rsiPoint (some g) (some l) = none := by injection h
      by_cases hl0 : l = 0
      · by_cases hg0 : g = 0
        · exact ⟨hg0, hl0⟩
        · simp [rsiPoint, hl0, hg0] at hpt
      · simp [rsiPoint, hl0] at hpt
    · rintro ⟨hg0, hl0⟩
      simp [rsiPoint, hg0, hl0]

/-- Witness for C2 at `p = [1,2,3]`, `n = 2`, `i = 2` (`avgGain = 1`,
`avgLoss = 0`, so RSI is `100`). -/
theorem rsi_edge_cases_witness :
    (RSI ([1, 2, 3].map some) 2).get? 2 = some (some 100) :=
  (rsi_edge_cases [1, 2, 3] 2 (by norm_num) 2 1 0
    (by norm_num [avgGain, gainSeries, diff, rollingMean, rmEntry, rmWindow,
      List.range_succ])
    (by norm_num [avgLoss, lossSeries, diff, rollingMean, rmEntry, rmWindow,
      List.range_succ])).1 rfl (by norm_num)

/-- C3: wherever the RSI value is undefined, the derived signal is `"HOLD"`
(never `"BUY"` or `"SELL"` on missing data). -/
theorem signal_hold_on_undefined_rsi (rsi : Series) (os ob : ℚ) (i : ℕ)
    (h : rsi.get? i = some none) :
    (Signal rsi os ob).get? i = some ("HOLD") := by
  have h0 : (rsi.map fun _ => "HOLD").get? i = some ("HOLD") := by
    rw [List.get?_map, h]
    rfl
  have h1 : (List.zipWith
      (fun r sig => match r with
        | some v => if v < os then ("BUY") else sig
        | none => sig) rsi (rsi.map fun _ => "HOLD")).get? i = some ("HOLD") := by
    rw [List.get?_zipWith', h, h0]
    rfl
  simp only [Signal]
  rw [List.get?_zipWith', h, h1]
  rfl

/-- Witness for C3 at `rsi = [some 50, none]`, `i = 1`. -/
theorem signal_hold_on_undefined_rsi_witness :
    (Signal [some 50, none] 30 70).get? 1 = some ("HOLD") :=
  signal_hold_on_undefined_rsi [some 50, none] 30 70 1 rfl

/-- C4: for a series defined at every index and span `n ≥ 1`, `EMA`
preserves the length, has no warm-up gap (every output defined), and
equals the spec recursion `ema[0] = s[0]`,
`ema[i] = alpha*s[i] + (1-alpha)*ema[i-1]` with `alpha = 2/(n+1)`. -/
theorem ema_no_warmup (s : List ℚ) (n : ℕ) (hn : 1 ≤ n) :
    (EMA (s.map some) n).length = s.length
    ∧ (∀ o ∈ EMA (s.map some) n, o.isSome = true)
    ∧ EMA (s.map some) n = (emaSpecRec (2 / ((n : ℚ) + 1)) s).map some := by
  refine ⟨?_, ?_, EMA_map_some s n⟩
  · rw [EMA_length]
    simp
  · intro o ho
    rw [EMA_map_some s n] at ho
    rcases List.mem_map.mp ho with ⟨q, _, rfl⟩
    rfl

/-- Witness for C4 at `s = [1,2]`, `n = 3`. -/
theorem ema_no_warmup_witness :
    EMA ([1, 2].map some) 3 = (emaSpecRec (2 / (((3 : ℕ) : ℚ) + 1)) [1, 2]).map some :=
  (ema_no_warmup [1, 2] 3 (by norm_num)).2.2

/-- C5 counterexample: for `series = [1, NaN, 3]` and span 3 (`alpha = 1/2`)
the code's EMA at the undefined input index 1 is `1` (the previous mean
carried forward), not undefined; and at index 2 it is `7/3`
(`((1-alpha)^2*1 + alpha*3) / ((1-alpha)^2 + alpha)`, the old state decayed
and renormalised), not a plain reseed to `3` nor the plain recursion
value `2`. -/
theorem ema_gap_counterexample :
    EMA [some 1, none, some 3] 3 = [some 1, some 1, some (7 / 3)]
    ∧ (some (1 : ℚ) : Option ℚ) ≠ none := by
  refine ⟨by norm_num [EMA, ewmGo, ewmStep], by simp⟩

/-- C5 amended: at an undefined input index the EMA output is not
undefined but carries the previous output forward (it is undefined only at
index 0, before any defined input); the smoothing state is retained across
the gap rather than reseeded. -/
theorem ema_gap_carry (s : Series) (n : ℕ) :
    (s.get? 0 = some none → (EMA s n).get? 0 = some none)
    ∧ ∀ j, s.get? (j + 1) = some none →
        (EMA s n).get? (j + 1) = (EMA s n).get? j := by
  constructor
  · intro h
    cases s with
    | nil => cases h
    | cons x xs =>
        have hx : x = none := by
          have hx2 : some x = some (none : Option ℚ) := h
          injection hx2
        subst hx
        rfl
  · intro j hj
    exact ewmGo_carry _ j s _ hj

/-- Witness for the amended C5 at `s = [some 1, none]`, `j = 0`. -/
theorem ema_gap_carry_witness :
    (EMA [some 1, none] 4).get? 1 = (EMA [some 1, none] 4).get? 0 :=
  (ema_gap_carry [some 1, none] 4).2 0 rfl

/-- C6 counterexample: with `oversold = 80 > overbought = 20` and
`RSI = [50]` both conditions match at index 0; the code assigns `"BUY"`
first and then overwrites it with `"SELL"`, so the signal is `"SELL"`,
not `"BUY"` as the claimed tie-break states. -/
theorem signal_tiebreak_counterexample :
    Signal [some 50] 80 20 = ["SELL"] ∧ (["SELL"] : List String) ≠ ["BUY"] := by
  refine ⟨by norm_num [Signal], by simp⟩

/-- C6 amended: the signal is computed independently per index as `"SELL"`
if `RSI[i] > overbought`, else `"BUY"` if `RSI[i] < oversold`, else
`"HOLD"`; when both conditions match (possible only when
`oversold >= overbought`) the overbought condition takes precedence — its
masked assignment is applied last and overwrites — so the signal is
`"SELL"`; the scenario `oversold=30, overbought=70, RSI=[20,50,80] ↦
[BUY, HOLD, SELL]` holds. -/
theorem signal_rule_pointwise :
    (∀ (rsi : Series) (os ob : ℚ),
      Signal rsi os ob = rsi.map fun r =>
        match r with
        | none => "HOLD"
        | some v => if ob < v then ("SELL") else if v < os then ("BUY") else ("HOLD"))
    ∧ Signal [some 20, some 50, some 80] 30 70 = ["BUY", "HOLD", "SELL"]
    ∧ Signal [some 50] 80 20 = ["SELL"] := by
  refine ⟨?_, by norm_num [Signal], by norm_num [Signal]⟩
  intro rsi os ob
  induction rsi with
  | nil => rfl
  | cons r rest ih =>
      simp only [Signal, List.map_cons, List.zipWith_cons_cons] at ih ⊢
      congr 1
      cases r <;> rfl

/-- C7: wherever RSI is defined, its value lies in `[0, 100]`. -/
theorem rsi_bounded (p : List ℚ) (n : ℕ) (hn : 1 ≤ n) (i : ℕ) (v : ℚ)
    (h : (RSI (p.map some) n).get? i = some (some v)) :
    0 ≤ v ∧ v ≤ 100 := by
  unfold RSI at h
  rcases (List.get?_zipWith_eq_some _ _ _ _ _).mp h with ⟨x, y, hx, hy, hxy⟩
  rcases x with _ | g <;> rcases y with _ | l
  · cases hxy
  · cases hxy
  · cases hxy
  have hgn : 0 ≤ g := by
    unfold avgGain at hx
    exact rollingMean_entry_nonneg (gainSeries_nonneg _) hx
  have hln : 0 ≤ l := by
    unfold avgLoss at hy
    exact rollingMean_entry_nonneg (lossSeries_nonneg _) hy
  by_cases hl0 : l = 0
  · by_cases hg0 : g = 0
    · simp [rsiPoint, hl0, hg0] at hxy
    · have hv : (100 : ℚ) = v := by
        have h2 := hxy
        simp only [rsiPoint, if_pos hl0, if_neg hg0] at h2
        injection h2
      rw [← hv]
      norm_num
  · have hlpos : 0 < l := lt_of_le_of_ne hln (Ne.symm hl0)
    have hv : 100 - 100 / (1 + g / l) = v := by
      have h2 := hxy
      simp only [rsiPoint, if_neg hl0] at h2
      injection h2
    have hrs : 0 ≤ g / l := div_nonneg hgn (le_of_lt hlpos)
    have hd : (0 : ℚ) < 1 + g / l := by linarith
    have hple : 100 / (1 + g / l) ≤ 100 := div_le_self (by norm_num) (by linarith)
    have hppos : 0 < 100 / (1 + g / l) := div_pos (by norm_num) hd
    constructor <;> linarith

/-- Witness for C7 at `p = [1,2,3]`, `n = 2`, `i = 2`, where RSI is `100`. -/
theorem rsi_bounded_witness : 0 ≤ (100 : ℚ) ∧ (100 : ℚ) ≤ 100 :=
  rsi_bounded [1, 2, 3] 2 (by norm_num) 2 100
    (by norm_num [RSI, rsiPoint, avgGain, avgLoss, gainSeries, lossSeries, diff,
      rollingMean, rmEntry, rmWindow, List.range_succ])

/-- C9: MACD returns three series of the input's length with
`macdLine = EMA(price, fast) - EMA(price, slow)`,
`signalLine = EMA(macdLine, signal)`, and the histogram equal to
`macdLine - signalLine` at every index where both are defined. -/
theorem macd_identities (s : Series) (fast slow signal : ℕ)
    (hf : 1 ≤ fast) (hsl : 1 ≤ slow) (hsg : 1 ≤ signal) :
    ((MACD s fast slow signal).1.length = s.length
      ∧ (MACD s fast slow signal).2.1.length = s.length
      ∧ (MACD s fast slow signal).2.2.length = s.length)
    ∧ (MACD s fast slow signal).1 = subSeries (EMA s fast) (EMA s slow)
    ∧ (MACD s fast slow signal).2.1 = EMA (MACD s fast slow signal).1 signal
    ∧ ∀ i a b, (MACD s fast slow signal).1.get? i = some (some a) →
        (MACD s fast slow signal).2.1.get? i = some (some b) →
        (MACD s fast slow signal).2.2.get? i = some (some (a - b)) := by
  have hm : (MACD s fast slow signal).1 = subSeries (EMA s fast) (EMA s slow) := rfl
  have hsg2 : (MACD s fast slow signal).2.1 = EMA (MACD s fast slow signal).1 signal :=
    rfl
  have hh : (MACD s fast slow signal).2.2
      = subSeries (MACD s fast slow signal).1 (MACD s fast slow signal).2.1 := rfl
  have hlen1 : (MACD s fast slow signal).1.length = s.length := by
    rw [hm]
    unfold subSeries
    rw [List.length_zipWith, EMA_length, EMA_length, min_self]
  refine ⟨⟨hlen1, ?_, ?_⟩, hm, hsg2, ?_⟩
  · rw [hsg2, EMA_length, hlen1]
  · rw [hh]
    unfold subSeries
    rw [List.length_zipWith, hsg2, EMA_length, hlen1, min_self]
  · intro i a b ha hb
    rw [hh]
    unfold subSeries
    rw [List.get?_zipWith', ha, hb]
    rfl

/-- Witness for C9 at `s = [1, 2]`, spans `(1, 2, 1)`, `i = 1`. -/
theorem macd_identities_witness :
    (MACD [some 1, some 2] 1 2 1).2.2.get? 1 = some (some ((1 : ℚ) / 3 - 1 / 3)) :=
  (macd_identities [some 1, some 2] 1 2 1 (by norm_num) (by norm_num)
      (by norm_num)).2.2.2 1 (1 / 3) (1 / 3)
    (by norm_num [MACD, subSeries, EMA, ewmGo, ewmStep])
    (by norm_num [MACD, subSeries, EMA, ewmGo, ewmStep])

/-- C10: at every index where the rolling averages are computed, RSI is
exactly `0` if and only if `avgGain = 0` and `avgLoss > 0`. -/
theorem rsi_zero_iff (p : List ℚ) (n : ℕ) (hn : 1 ≤ n) (i : ℕ) (g l : ℚ)
    (hg : (avgGain (p.map some) n).get? i = some (some g))
    (hl : (avgLoss (p.map some) n).get? i = some (some l)) :
    (RSI (p.map some) n).get? i = some (some 0) ↔ g = 0 ∧ 0 < l := by
  have hR : (RSI (p.map some) n).get? i = some (rsiPoint (some g) (some l)) := by
    unfold RSI
    rw [List.get?_zipWith', hg, hl]
    rfl
  have hgn : 0 ≤ g := by
    unfold avgGain at hg
    exact rollingMean_entry_nonneg (gainSeries_nonneg _) hg
  have hln : 0 ≤ l := by
    unfold avgLoss at hl
    exact rollingMean_entry_nonneg (lossSeries_nonneg _) hl
  rw [hR]
  constructor
  · intro h
    have hpt : rsiPoint (some g) (some l) = some 0 := by injection h
    by_cases hl0 : l = 0
    · by_cases hg0 : g = 0
      · simp [rsiPoint, hl0, hg0] at hpt
      · have h100 : (100 : ℚ) = 0 := by
          simp only [rsiPoint, if_pos hl0, if_neg hg0] at hpt
          injection hpt
        norm_num at h100
    · have hlpos : 0 < l := lt_of_le_of_ne hln (Ne.symm hl0)
      refine ⟨?_, hlpos⟩
      have hv : 100 - 100 / (1 + g / l) = 0 := by
        simp only [rsiPoint, if_neg hl0] at hpt
        injection hpt
      have hrs : 0 ≤ g / l := div_nonneg hgn (le_of_lt hlpos)
      have hd : (0 : ℚ) < 1 + g / l := by linarith
      have hq : (100 : ℚ) / (1 + g / l) = 100 := by linarith
      have h1 : (100 : ℚ) = 100 * (1 + g / l) := (div_eq_iff (ne_of_gt hd)).mp hq
      have h2 : g / l = 0 := by linarith
      rcases div_eq_zero_iff.mp h2 with h3 | h3
      · exact h3
      · exact absurd h3 hl0
  · rintro ⟨hg0, hlpos⟩
    have hl0 : l ≠ 0 := ne_of_gt hlpos
    norm_num [rsiPoint, hl0, hg0]

/-- Witness for C10 at `p = [3,2,1]`, `n = 2`, `i = 2` (`avgGain = 0`,
`avgLoss = 1`, so RSI is `0`). -/
theorem rsi_zero_iff_witness :
    (RSI ([3, 2, 1].map some) 2).get? 2 = some (some 0) :=
  (rsi_zero_iff [3, 2, 1] 2 (by norm_num) 2 0 1
    (by norm_num [avgGain, gainSeries, diff, rollingMean, rmEntry, rmWindow,
      List.range_succ])
    (by norm_num [avgLoss, lossSeries, diff, rollingMean, rmEntry, rmWindow,
      List.range_succ])).mpr ⟨rfl, by norm_num⟩

/-- C8: with `mid = rollingMean(price, n)`, `std = rollingStd(price, n)`,
`upper = mid + k*std` and `lower = mid - k*std`, the bands satisfy
`upper - lower = 2*k*std` at every index where they are defined. -/
theorem bollinger_band_width (s : Series) (n : ℕ) (k : ℝ) (i : ℕ) (u lo sd : ℝ)
    (hn : 2 ≤ n)
    (hu : (Bollinger s n k).1.get? i = some (some u))
    (hl : (Bollinger s n k).2.2.get? i = some (some lo))
    (hsd : (rollingStd s n).get? i = some (some sd)) :
    u - lo = 2 * k * sd := by
  have hup : (Bollinger s n k).1
      = addMul k (toRealSeries (SMA s n)) (rollingStd s n) := rfl
  have hlo2 : (Bollinger s n k).2.2
      = subMul k (toRealSeries (SMA s n)) (rollingStd s n) := rfl
  rw [hup] at hu
  rw [hlo2] at hl
  unfold addMul at hu
  unfold subMul at hl
  rcases (List.get?_zipWith_eq_some _ _ _ _ _).mp hu with ⟨x, y, hx, hy, hxy⟩
  rcases (List.get?_zipWith_eq_some _ _ _ _ _).mp hl with ⟨x2, y2, hx2, hy2, hxy2⟩
  have hysd : y = some sd := by
    rw [hy] at hsd
    injection hsd
  have hysd2 : y2 = some sd := by
    rw [hy2] at hsd
    injection hsd
  have hxx : x = x2 := by
    rw [hx] at hx2
    injection hx2
  subst hysd
  subst hysd2
  subst hxx
  cases x with
  | none =>
      cases hxy
  | some a =>
      have hu2 : a + k * sd = u := by simpa using hxy
      have hl2 : a - k * sd = lo := by simpa using hxy2
      rw [← hu2, ← hl2]
      ring

/-- Witness for C8 at `s = [0,1,2]`, `n = 3`, `k = 2`, `i = 2`
(`mid = 1`, sample variance `1`, `std = √1`). -/
theorem bollinger_band_width_witness :
    ((1 : ℝ) + 2 * Real.sqrt 1) - ((1 : ℝ) - 2 * Real.sqrt 1)
      = 2 * 2 * Real.sqrt 1 := by
  have hm : (toRealSeries (SMA [some 0, some 1, some 2] 3)).get? 2
      = some (some (1 : ℝ)) := by
    norm_num [toRealSeries, SMA, rollingMean, rmEntry, rmWindow, List.range_succ]
  have hv : (rollingStd [some 0, some 1, some 2] 3).get? 2
      = some (some (Real.sqrt 1)) := by
    norm_num [rollingStd, rollingVar, varEntry, rmWindow, List.range_succ]
  have hu : (Bollinger [some 0, some 1, some 2] 3 2).1.get? 2
      = some (some ((1 : ℝ) + 2 * Real.sqrt 1)) := by
    have h1 : (Bollinger [some 0, some 1, some 2] 3 2).1
        = addMul 2 (toRealSeries (SMA [some 0, some 1, some 2] 3))
            (rollingStd [some 0, some 1, some 2] 3) := rfl
    rw [h1]
    unfold addMul
    rw [List.get?_zipWith', hm, hv]
    rfl
  have hlo : (Bollinger [some 0, some 1, some 2] 3 2).2.2.get? 2
      = some (some ((1 : ℝ) - 2 * Real.sqrt 1)) := by
    have h1 : (Bollinger [some 0, some 1, some 2] 3 2).2.2
        = subMul 2 (toRealSeries (SMA [some 0, some 1, some 2] 3))
            (rollingStd [some 0, some 1, some 2] 3) := rfl
    rw [h1]
    unfold subMul
    rw [List.get?_zipWith', hm, hv]
    rfl
  exact bollinger_band_width [some 0, some 1, some 2] 3 2 2 _ _ _ (by norm_num)
    hu hlo hv

end Quant
